import Mathlib

/-!
Verification of the crawl scheduler in `src/scraper/runners/async_runner.py`
(`AsyncRunner`).  The scheduler's pure decision logic (`_write`,
`_handle_result`) is embedded directly; the event loop (`run`, `_submit`) is
embedded as an explicit transition system over a scheduler state, where the
environment picks, at each step, which in-flight task completes and with what
outcome (asyncio's wait-for-any semantics).  Entity payloads and storage
records are type parameters `E` and `R`; the storage collaborator is a pair of
function parameters mirroring `add_player` / `extend_player`.
-/

namespace Scraper

/-- Modelled from the spec: the class `runners.item.Item` is imported by
`async_runner.py` but its module is not under `src/`.  Per the spec (§3 Data
Model) an Item carries its `url` (the dedup identity key) and `tries`, an
integer count of dispatch attempts starting at 0 and incremented on each
dispatch; `dispatchedAt` is used only for logging durations and is omitted. -/
structure Item where
  url : String
  tries : Nat
deriving DecidableEq, Repr

/-- `Item(url)`: a freshly discovered item, zero dispatch attempts so far. -/
def Item.new (url : String) : Item := ⟨url, 0⟩

/-- The record written to the sink by `AsyncRunner._write`:
`{'url': item.url, 'tries': item.tries, 'result': result, 'error': error}`. -/
structure OutcomeRecord (R : Type) where
  url : String
  tries : Nat
  result : Option R
  error : Option String
deriving DecidableEq, Repr

/-- `AsyncRunner._write(item, result=None, error=None)`.  If both `result` and
`error` are `None` it raises `RuntimeError` (modelled as `Except.error` with
the exact message) and nothing reaches the sink; otherwise it builds the
record and hands it to `self._sink.write` (modelled by returning it). -/
def write_record {R : Type} (item : Item) (result : Option R)
    (error : Option String) : Except String (OutcomeRecord R) :=
  match result, error with
  | none, none => .error "Invalid result. Both result and error are None"
  | r, e => .ok { url := item.url, tries := item.tries, result := r, error := e }

/-- The parser's result dict consumed by `AsyncRunner._handle_result`.
Key presence (`"from_team_page" in result`, `"from_player_page" in result`) is
modelled by `Option`; `next_urls` is always present. -/
structure FetchResult (E : Type) where
  from_team_page : Option (List E)
  from_player_page : Option E
  next_urls : List String
deriving DecidableEq, Repr

/-- The observable effect of one `_handle_result` call: the
`pl_storage.add_player(player["url"], player)` calls made (key–entity pairs,
in order), the records written to the sink, and the returned
`result["next_urls"]`. -/
structure HandleEffect (E R : Type) where
  adds : List (String × E)
  written : List (OutcomeRecord R)
  next_urls : List String
deriving DecidableEq, Repr

/-- `AsyncRunner._handle_result(item, result)`.  `player_url` models the
lookup `p["url"]` on an entity; `extend_player` models
`pl_storage.extend_player`, whose returned merged record may be `None`
(in which case the inner `_write` raises).  The `if/elif` chain: the
`from_team_page` branch wins when both keys are present. -/
def handle_result {E R : Type} (player_url : E → String)
    (extend_player : String → E → Option R) (item : Item)
    (result : FetchResult E) : Except String (HandleEffect E R) :=
  match result.from_team_page with
  | some players =>
      .ok ⟨players.map (fun p => (player_url p, p)), [], result.next_urls⟩
  | none =>
      match result.from_player_page with
      | some info =>
          match write_record item (extend_player (player_url info) info) none with
          | .error msg => .error msg
          | .ok orec => .ok ⟨[], [orec], result.next_urls⟩
      | none => .ok ⟨[], [], result.next_urls⟩

/-- The scheduler state owned by the `run` loop: the in-flight futures
(`self._in_air`, identified by their item snapshot), the dedup frontier
(`self._seen`), the records written to the sink so far, a log of every
`_submit` call (the item as dispatched, i.e. after `tries += 1`), and whether
an uncaught exception has escaped the loop. -/
structure RunState (E R : Type) where
  in_air : List Item
  seen : List String
  records : List (OutcomeRecord R)
  submissions : List Item
  crashed : Bool
deriving Repr

/-- The state before `run` starts: everything empty. -/
def initState (E R : Type) : RunState E R := ⟨[], [], [], [], false⟩

/-- `self._seen.add(url)`: set insertion. -/
def addSeen (url : String) (seen : List String) : List String :=
  if url ∈ seen then seen else url :: seen

/-- `AsyncRunner._submit(item)`: increments `tries`, starts a fetch future for
the item (recorded in `in_air` and in the submission log) and adds the URL to
the dedup frontier.  No dedup check happens here. -/
def submit {E R : Type} (s : RunState E R) (item : Item) : RunState E R :=
  let item' : Item := ⟨item.url, item.tries + 1⟩
  { s with in_air := item' :: s.in_air,
           seen := addSeen item.url s.seen,
           submissions := s.submissions ++ [item'] }

/-- The seeding phase of `run`:
`for url in self._seed_urls: self._submit(Item(url))` — note that it never
consults `self._seen`. -/
def seedRun {E R : Type} (seeds : List String) (s : RunState E R) :
    RunState E R :=
  seeds.foldl (fun st url => submit st (Item.new url)) s

/-- How a fetch future completes: `future.result()` either raises (transport,
HTTP-status or parse failure, summarised by its message) or yields the
parser's `FetchResult`. -/
inductive Outcome (E : Type) where
  | fail (err : String)
  | success (res : FetchResult E)

/-- The scheduling of `next_urls` after a success:
`for url in next_urls: if url not in self._seen: self._submit(Item(url))`. -/
def scheduleNext {E R : Type} (s : RunState E R) (urls : List String) :
    RunState E R :=
  urls.foldl (fun st url => if url ∈ st.seen then st else submit st (Item.new url)) s

/-- One iteration of the body of `run`'s while-loop for a single completed
future.  The environment's event names the completed in-flight item and its
outcome; an event naming a non-in-flight item is a no-op (asyncio only
reports futures from the waited set).  Failure goes through the retry policy
(`tries >= max_tries` → terminal failure write, else resubmit); success goes
through `_handle_result` and then schedules the unseen next-URLs.  An
exception escaping `_handle_result`/`_write` crashes the run. -/
def step {E R : Type} (maxTries : Nat) (player_url : E → String)
    (extend_player : String → E → Option R) (s : RunState E R)
    (ev : Item × Outcome E) : RunState E R :=
  if s.crashed then s
  else if ev.1 ∈ s.in_air then
    let item := ev.1
    let s0 : RunState E R := { s with in_air := s.in_air.erase item }
    match ev.2 with
    | .fail e =>
        if maxTries ≤ item.tries then
          match write_record item (none : Option R) (some e) with
          | .ok orec => { s0 with records := s0.records ++ [orec] }
          | .error _ => { s0 with crashed := true }
        else submit s0 item
    | .success res =>
        match handle_result player_url extend_player item res with
        | .error _ => { s0 with crashed := true }
        | .ok eff =>
            scheduleNext { s0 with records := s0.records ++ eff.written }
              eff.next_urls
  else s

/-- A whole run fragment: fold the loop body over a completion trace. -/
def runEvents {E R : Type} (maxTries : Nat) (player_url : E → String)
    (extend_player : String → E → Option R) (evs : List (Item × Outcome E))
    (s : RunState E R) : RunState E R :=
  evs.foldl (step maxTries player_url extend_player) s

/-- How many fetch tasks were ever created for `url` as a *first* submission
(a submission whose item had `tries = 0` before `_submit` incremented it). -/
def countFirst {E R : Type} (s : RunState E R) (url : String) : Nat :=
  (s.submissions.filter (fun it => it.url == url && it.tries == 1)).length

/-- The default of the `max_parallel` constructor argument of `AsyncRunner`. -/
def defaultMaxParallel : Nat := 5

/-- An Outcome Record with exactly one of `result` / `error` non-null. -/
def ExactlyOne {R : Type} (orec : OutcomeRecord R) : Prop :=
  (orec.result ≠ none ∧ orec.error = none) ∨
  (orec.result = none ∧ orec.error ≠ none)

/-- The semaphore-level view of the fetch tasks: which created futures exist
(`in_air`) and which of them are currently inside the
`async with self._semaphore` block of `_download` (`holding`). -/
structure SemState where
  in_air : List Item
  holding : List Item
deriving DecidableEq, Repr

/-- Micro events of the semaphore model: `_submit` creates a future; a running
future acquires the semaphore (possible only while fewer than `max_parallel`
permits are taken, as `asyncio.Semaphore(max_parallel)` blocks otherwise);
a future releases its permit and completes. -/
inductive SemEv where
  | spawn (it : Item)
  | acquire (it : Item)
  | release (it : Item)

/-- Transition of the semaphore model. -/
def semStep (maxParallel : Nat) (s : SemState) (ev : SemEv) : SemState :=
  match ev with
  | .spawn it => { s with in_air := it :: s.in_air }
  | .acquire it =>
      if it ∈ s.in_air ∧ it ∉ s.holding ∧ s.holding.length < maxParallel then
        { s with holding := it :: s.holding }
      else s
  | .release it => { in_air := s.in_air.erase it, holding := s.holding.erase it }

/-- A completion trace in which the fetch for `u` fails `b` times in a row,
the completing item entering with `tries = a` and counting up by one per
retry. -/
def failEvts (E : Type) (u err : String) (a b : Nat) : List (Item × Outcome E) :=
  (List.range' a b).map (fun i => (⟨u, i⟩, Outcome.fail err))

/-- The dedup invariant maintained by the scheduler: every URL has at most one
first-submission fetch task, every URL with a first submission is in the
frontier, and every in-flight item has been dispatched at least once. -/
def DedupInv {E R : Type} (s : RunState E R) : Prop :=
  (∀ url, countFirst s url ≤ 1) ∧
  (∀ url, 1 ≤ countFirst s url → url ∈ s.seen) ∧
  (∀ it ∈ s.in_air, 1 ≤ it.tries)

/-! ## Theorems about `_handle_result` and `_write` -/

/-- C5: a successful fetch result containing only collection-page entities
(`from_team_page` present, no `from_player_page` key) produces zero Outcome
Records, forwards every collection entity to storage's add operation, and
still returns the result's next-URL list to the loop for scheduling. -/
theorem collection_only_no_write {E R : Type} (player_url : E → String)
    (extend_player : String → E → Option R) (item : Item)
    (res : FetchResult E) (ps : List E)
    (h1 : res.from_team_page = some ps) (h2 : res.from_player_page = none) :
    handle_result player_url extend_player item res =
      .ok ⟨ps.map (fun p => (player_url p, p)), [], res.next_urls⟩ := by
  simp [handle_result, h1]

/-- Witness for `collection_only_no_write` at a concrete result. -/
theorem collection_only_no_write_witness :
    (FetchResult.mk (some ["p1"]) none ["n"] : FetchResult String).from_team_page
        = some ["p1"] ∧
    (FetchResult.mk (some ["p1"]) none ["n"] : FetchResult String).from_player_page
        = none ∧
    handle_result id (fun _ p => some p) ⟨"u", 1⟩
        (FetchResult.mk (some ["p1"]) none ["n"] : FetchResult String) =
      .ok ⟨[("p1", "p1")], ([] : List (OutcomeRecord String)), ["n"]⟩ :=
  ⟨rfl, rfl,
    collection_only_no_write id (fun _ p => some p) ⟨"u", 1⟩ _ ["p1"] rfl rfl⟩

/-- C4 as stated is false: a successful result that carries a detail-page
entity (`"d"`) but also a collection-page key produces zero Outcome Records,
because the `if/elif` chain lets the collection branch win. -/
theorem detail_entity_zero_writes :
    handle_result id (fun _ p => some p) ⟨"u", 1⟩
        (FetchResult.mk (some ["c"]) (some "d") [] : FetchResult String) =
      .ok ⟨[("c", "c")], ([] : List (OutcomeRecord String)), []⟩ := rfl

/-- C4 (amended): a successful fetch result that carries a detail-page entity
and no collection-page key produces exactly one successful Outcome Record,
whose `result` equals the merged record returned by storage's
`extend_player`. -/
theorem detail_page_single_write {E R : Type} (player_url : E → String)
    (extend_player : String → E → Option R) (item : Item)
    (res : FetchResult E) (info : E) (merged : R)
    (h1 : res.from_team_page = none) (h2 : res.from_player_page = some info)
    (h3 : extend_player (player_url info) info = some merged) :
    handle_result player_url extend_player item res =
      .ok ⟨[], [⟨item.url, item.tries, some merged, none⟩], res.next_urls⟩ := by
  simp [handle_result, h1, h2, h3, write_record]

/-- Witness for `detail_page_single_write` at a concrete result. -/
theorem detail_page_single_write_witness :
    (FetchResult.mk none (some "d") ["n"] : FetchResult String).from_team_page
        = none ∧
    (FetchResult.mk none (some "d") ["n"] : FetchResult String).from_player_page
        = some "d" ∧
    (fun (_ : String) (p : String) => some ("m" ++ p)) (id "d") "d" = some "md" ∧
    handle_result id (fun _ p => some ("m" ++ p)) ⟨"u", 3⟩
        (FetchResult.mk none (some "d") ["n"] : FetchResult String) =
      .ok ⟨[], [⟨"u", 3, some "md", none⟩], ["n"]⟩ :=
  ⟨rfl, rfl, rfl,
    detail_page_single_write id (fun _ p => some ("m" ++ p)) ⟨"u", 3⟩ _ "d" "md"
      rfl rfl rfl⟩

/-- C9: when a successful result has both the collection-page and the
detail-page keys, only the collection branch fires: every collection entity is
forwarded to add, no record is written, and the outcome does not depend on the
storage `extend_player` at all (it is never called). -/
theorem both_tags_collection_branch {E R : Type} (player_url : E → String)
    (extend_player extend_player' : String → E → Option R) (item : Item)
    (res : FetchResult E) (ps : List E) (info : E)
    (h1 : res.from_team_page = some ps) (h2 : res.from_player_page = some info) :
    handle_result player_url extend_player item res =
        .ok ⟨ps.map (fun p => (player_url p, p)), [], res.next_urls⟩ ∧
    handle_result player_url extend_player item res =
        handle_result player_url extend_player' item res := by
  constructor <;> simp [handle_result, h1]

/-- Witness for `both_tags_collection_branch` at a concrete result. -/
theorem both_tags_collection_branch_witness :
    (FetchResult.mk (some ["c"]) (some "d") ["n"] : FetchResult String).from_team_page
        = some ["c"] ∧
    (FetchResult.mk (some ["c"]) (some "d") ["n"] : FetchResult String).from_player_page
        = some "d" ∧
    (handle_result id (fun _ p => some p) ⟨"u", 1⟩
          (FetchResult.mk (some ["c"]) (some "d") ["n"] : FetchResult String) =
        .ok ⟨[("c", "c")], [], ["n"]⟩ ∧
      handle_result id (fun _ p => some p) ⟨"u", 1⟩
          (FetchResult.mk (some ["c"]) (some "d") ["n"] : FetchResult String) =
        handle_result id (fun _ _ => (none : Option String)) ⟨"u", 1⟩
          (FetchResult.mk (some ["c"]) (some "d") ["n"])) :=
  ⟨rfl, rfl,
    both_tags_collection_branch id (fun _ p => some p)
      (fun _ _ => (none : Option String)) ⟨"u", 1⟩ _ ["c"] "d" rfl rfl⟩

/-- C10: when the detail branch fires but `extend_player` returns `None`, the
inner `_write` is invoked with both `result` and `error` `None` and raises the
internal both-null error; nothing is written to the sink. -/
theorem extend_none_raises {E R : Type} (player_url : E → String)
    (extend_player : String → E → Option R) (item : Item)
    (res : FetchResult E) (info : E)
    (h1 : res.from_team_page = none) (h2 : res.from_player_page = some info)
    (h3 : extend_player (player_url info) info = none) :
    handle_result player_url extend_player item res =
      .error "Invalid result. Both result and error are None" := by
  simp [handle_result, h1, h2, h3, write_record]

/-- Witness for `extend_none_raises` at a concrete result. -/
theorem extend_none_raises_witness :
    (FetchResult.mk none (some "d") ["n"] : FetchResult String).from_team_page
        = none ∧
    (FetchResult.mk none (some "d") ["n"] : FetchResult String).from_player_page
        = some "d" ∧
    (fun (_ : String) (_ : String) => (none : Option String)) (id "d") "d" = none ∧
    handle_result id (fun _ _ => (none : Option String)) ⟨"u", 1⟩
        (FetchResult.mk none (some "d") ["n"] : FetchResult String) =
      .error "Invalid result. Both result and error are None" :=
  ⟨rfl, rfl, rfl,
    extend_none_raises id (fun _ _ => (none : Option String)) ⟨"u", 1⟩ _ "d"
      rfl rfl rfl⟩

/-! ## The write-exclusivity invariant (C6) -/

theorem submit_records {E R : Type} (s : RunState E R) (it : Item) :
    (submit s it).records = s.records := rfl

theorem scheduleNext_records {E R : Type} (urls : List String)
    (s : RunState E R) : (scheduleNext s urls).records = s.records := by
  induction urls generalizing s with
  | nil => rfl
  | cons u rest ih =>
      show (scheduleNext (if u ∈ s.seen then s
          else submit s (Item.new u)) rest).records = s.records
      rw [ih]
      by_cases h : u ∈ s.seen <;> simp [h, submit_records]

theorem seedRun_records {E R : Type} (seeds : List String) (s : RunState E R) :
    (seedRun seeds s).records = s.records := by
  induction seeds generalizing s with
  | nil => rfl
  | cons u rest ih =>
      show (seedRun rest (submit s (Item.new u))).records = s.records
      rw [ih, submit_records]

theorem handle_result_written_exclusive {E R : Type} (player_url : E → String)
    (extend_player : String → E → Option R) (item : Item) (res : FetchResult E)
    (eff : HandleEffect E R)
    (h : handle_result player_url extend_player item res = .ok eff) :
    ∀ orec ∈ eff.written, ExactlyOne orec := by
  cases htp : res.from_team_page with
  | some ps =>
      simp only [handle_result, htp, Except.ok.injEq] at h
      subst h; simp
  | none =>
      cases hpp : res.from_player_page with
      | none =>
          simp only [handle_result, htp, hpp, Except.ok.injEq] at h
          subst h; simp
      | some info =>
          cases hex : extend_player (player_url info) info with
          | none =>
              simp only [handle_result, htp, hpp, hex, write_record] at h
              exact Except.noConfusion h
          | some m =>
              simp only [handle_result, htp, hpp, hex, write_record,
                Except.ok.injEq] at h
              subst h
              intro orec hm
              simp only [List.mem_singleton] at hm
              subst hm
              exact Or.inl ⟨by simp, rfl⟩

theorem step_records_exclusive {E R : Type} (maxTries : Nat)
    (player_url : E → String) (extend_player : String → E → Option R)
    (s : RunState E R) (ev : Item × Outcome E)
    (hs : ∀ orec ∈ s.records, ExactlyOne orec) :
    ∀ orec ∈ (step maxTries player_url extend_player s ev).records,
      ExactlyOne orec := by
  unfold step
  cases hc : s.crashed with
  | true => simpa using hs
  | false =>
      simp only [Bool.false_eq_true, if_false]
      by_cases hin : ev.1 ∈ s.in_air
      · simp only [hin, if_true]
        cases hev : ev.2 with
        | fail e =>
            by_cases hmt : maxTries ≤ ev.1.tries
            · simp only [hmt, if_true, write_record]
              intro orec hm
              rcases List.mem_append.mp hm with hm | hm
              · exact hs orec hm
              · simp only [List.mem_singleton] at hm
                subst hm
                exact Or.inr ⟨rfl, by simp⟩
            · simp only [hmt, if_false]
              rw [submit_records]
              exact hs
        | success res =>
            cases hres : handle_result player_url extend_player ev.1 res with
            | error msg =>
                simp only [hres]
                exact hs
            | ok eff =>
                simp only [hres, scheduleNext_records]
                intro orec hm
                rcases List.mem_append.mp hm with hm | hm
                · exact hs orec hm
                · exact handle_result_written_exclusive player_url extend_player
                    ev.1 res eff hres orec hm
      · simp only [hin, if_false]
        exact hs

theorem runEvents_records_exclusive {E R : Type} (maxTries : Nat)
    (player_url : E → String) (extend_player : String → E → Option R)
    (evs : List (Item × Outcome E)) (s : RunState E R)
    (hs : ∀ orec ∈ s.records, ExactlyOne orec) :
    ∀ orec ∈ (runEvents maxTries player_url extend_player evs s).records,
      ExactlyOne orec := by
  induction evs generalizing s with
  | nil => exact hs
  | cons e rest ih =>
      exact ih _ (step_records_exclusive maxTries player_url extend_player s e hs)

/-- C6: every record the scheduler ever writes to the sink has exactly one of
`result` / `error` non-null; `_write` invoked with both null raises the
internal both-null error and writes nothing, while `_write` with at least one
non-null field writes `{url, tries, result, error}` to the sink. -/
theorem write_paths_exclusive {E R : Type} (player_url : E → String)
    (extend_player : String → E → Option R) :
    (∀ item : Item, write_record (R := R) item none none =
        .error "Invalid result. Both result and error are None") ∧
    (∀ (item : Item) (r : Option R) (e : Option String), r ≠ none ∨ e ≠ none →
        write_record item r e = .ok ⟨item.url, item.tries, r, e⟩) ∧
    (∀ (maxTries : Nat) (seeds : List String) (evs : List (Item × Outcome E))
        (orec : OutcomeRecord R),
        orec ∈ (runEvents maxTries player_url extend_player evs
            (seedRun seeds (initState E R))).records → ExactlyOne orec) := by
  refine ⟨fun item => rfl, ?_, ?_⟩
  · intro item r e h
    match r, e with
    | some r, e => rfl
    | none, some e => rfl
    | none, none => simp at h
  · intro mt seeds evs orec hmem
    refine runEvents_records_exclusive mt player_url extend_player evs _ ?_ orec hmem
    rw [seedRun_records]
    intro o ho
    simp [initState] at ho

/-- Witness for `write_paths_exclusive`: the non-null-result write path at a
concrete record. -/
theorem write_paths_exclusive_witness :
    ((some "r" : Option String) ≠ none ∨ (none : Option String) ≠ none) ∧
    write_record ⟨"u", 2⟩ (some "r") (none : Option String) =
      .ok ⟨"u", 2, some "r", none⟩ :=
  ⟨Or.inl (by simp),
    (write_paths_exclusive (E := String) id (fun _ p => some p)).2.1
      ⟨"u", 2⟩ (some "r") none (Or.inl (by simp))⟩

/-! ## Concurrency bound (C2) -/

theorem semStep_holding_le {maxParallel : Nat} (s : SemState) (ev : SemEv)
    (h : s.holding.length ≤ maxParallel) :
    (semStep maxParallel s ev).holding.length ≤ maxParallel := by
  cases ev with
  | spawn it => exact h
  | acquire it =>
      by_cases hc : it ∈ s.in_air ∧ it ∉ s.holding ∧
          s.holding.length < maxParallel
      · simp only [semStep, hc, if_true, List.length_cons]
        exact hc.2.2
      · simp only [semStep, hc, if_false]
        exact h
  | release it =>
      exact le_trans (List.erase_sublist it s.holding).length_le h

/-- C2 as stated is false: `_submit` puts every created future into
`self._in_air` unconditionally, so seeding six URLs leaves six outstanding
futures in the in-flight set while the default `max_parallel` is 5.  The
semaphore only gates execution inside `_download`, not membership of
`self._in_air`. -/
theorem inflight_exceeds_default_limit :
    defaultMaxParallel <
      (seedRun ["a", "b", "c", "d", "e", "f"]
        (initState String String)).in_air.length := by decide

/-- C2 (amended): the number of fetch tasks concurrently holding a permit of
`asyncio.Semaphore(max_parallel)` — i.e. executing the body of `_download` —
never exceeds `max_parallel`, over any trace of spawn/acquire/release events
starting with no permits taken.  The in-flight futures set itself is not
bounded by `max_parallel`. -/
theorem semaphore_bounds_holding (maxParallel : Nat) (l : List Item)
    (evs : List SemEv) :
    ((evs.foldl (semStep maxParallel) ⟨l, []⟩).holding).length ≤ maxParallel := by
  have key : ∀ (evs : List SemEv) (s : SemState),
      s.holding.length ≤ maxParallel →
      ((evs.foldl (semStep maxParallel) s).holding).length ≤ maxParallel := by
    intro evs
    induction evs with
    | nil => exact fun s hs => hs
    | cons e rest ih => exact fun s hs => ih _ (semStep_holding_le s e hs)
  exact key evs ⟨l, []⟩ (by simp)

/-! ## Retry frame condition (C8) -/

/-- C8: a retry resubmission (failure completion with `tries < max_tries`)
resubmits the same Item — same URL, `tries` incremented — and leaves the dedup
frontier unchanged, the URL being already a member; no record is written. -/
theorem retry_resubmission_frame {E R : Type} (maxTries : Nat)
    (player_url : E → String) (extend_player : String → E → Option R)
    (s : RunState E R) (item : Item) (e : String)
    (hc : s.crashed = false) (hin : item ∈ s.in_air)
    (hlt : item.tries < maxTries) (hseen : item.url ∈ s.seen) :
    (step maxTries player_url extend_player s (item, .fail e)).seen = s.seen ∧
    (step maxTries player_url extend_player s (item, .fail e)).in_air =
      (⟨item.url, item.tries + 1⟩ : Item) :: s.in_air.erase item ∧
    (step maxTries player_url extend_player s (item, .fail e)).records =
      s.records := by
  have hstep : step maxTries player_url extend_player s (item, .fail e) =
      submit { s with in_air := s.in_air.erase item } item := by
    simp [step, hc, hin, Nat.not_le.mpr hlt]
  rw [hstep]
  exact ⟨by simp [submit, addSeen, hseen], rfl, rfl⟩

/-- Witness for `retry_resubmission_frame` at a concrete scheduler state. -/
theorem retry_resubmission_frame_witness :
    ((⟨[⟨"u", 1⟩], ["u"], [], [⟨"u", 1⟩], false⟩ :
        RunState String String).crashed = false) ∧
    ((⟨"u", 1⟩ : Item) ∈ (⟨[⟨"u", 1⟩], ["u"], [], [⟨"u", 1⟩], false⟩ :
        RunState String String).in_air) ∧
    ((⟨"u", 1⟩ : Item).tries < 3) ∧
    ((⟨"u", 1⟩ : Item).url ∈ (⟨[⟨"u", 1⟩], ["u"], [], [⟨"u", 1⟩], false⟩ :
        RunState String String).seen) ∧
    ((step 3 id (fun _ p => some p)
        (⟨[⟨"u", 1⟩], ["u"], [], [⟨"u", 1⟩], false⟩ : RunState String String)
        (⟨"u", 1⟩, .fail "boom")).seen = ["u"] ∧
      (step 3 id (fun _ p => some p)
        (⟨[⟨"u", 1⟩], ["u"], [], [⟨"u", 1⟩], false⟩ : RunState String String)
        (⟨"u", 1⟩, .fail "boom")).in_air =
          [(⟨"u", 2⟩ : Item)] ∧
      (step 3 id (fun _ p => some p)
        (⟨[⟨"u", 1⟩], ["u"], [], [⟨"u", 1⟩], false⟩ : RunState String String)
        (⟨"u", 1⟩, .fail "boom")).records = []) :=
  ⟨rfl, by decide, by decide, by decide,
    retry_resubmission_frame 3 id (fun _ p => some p)
      ⟨[⟨"u", 1⟩], ["u"], [], [⟨"u", 1⟩], false⟩ ⟨"u", 1⟩ "boom"
      rfl (by decide) (by decide) (by decide)⟩

/-! ## Retries then success (C7) -/

/-- C7: with `max_tries = 3`, an item that fails on its first two dispatches
and succeeds as a detail page on the third produces exactly one successful
Outcome Record, whose `tries` is 3 (the counter accumulates across retries)
and whose `result` is the merged record from storage's extend. -/
theorem fail_twice_then_success {E R : Type} (player_url : E → String)
    (extend_player : String → E → Option R) (u e1 e2 : String)
    (res : FetchResult E) (info : E) (merged : R)
    (h1 : res.from_team_page = none) (h2 : res.from_player_page = some info)
    (h3 : extend_player (player_url info) info = some merged) :
    (runEvents 3 player_url extend_player
        [(⟨u, 1⟩, .fail e1), (⟨u, 2⟩, .fail e2), (⟨u, 3⟩, .success res)]
        (seedRun [u] (initState E R))).records =
      [⟨u, 3, some merged, none⟩] := by
  have hseed : seedRun [u] (initState E R) =
      ⟨[⟨u, 1⟩], [u], [], [⟨u, 1⟩], false⟩ := by
    simp [seedRun, initState, submit, addSeen, Item.new]
  have hstep1 : step 3 player_url extend_player
      ⟨[⟨u, 1⟩], [u], [], [⟨u, 1⟩], false⟩ (⟨u, 1⟩, .fail e1) =
      ⟨[⟨u, 2⟩], [u], [], [⟨u, 1⟩, ⟨u, 2⟩], false⟩ := by
    simp [step, submit, addSeen]
  have hstep2 : step 3 player_url extend_player
      ⟨[⟨u, 2⟩], [u], [], [⟨u, 1⟩, ⟨u, 2⟩], false⟩ (⟨u, 2⟩, .fail e2) =
      ⟨[⟨u, 3⟩], [u], [], [⟨u, 1⟩, ⟨u, 2⟩, ⟨u, 3⟩], false⟩ := by
    simp [step, submit, addSeen]
  have hstep3 : step 3 player_url extend_player
      ⟨[⟨u, 3⟩], [u], [], [⟨u, 1⟩, ⟨u, 2⟩, ⟨u, 3⟩], false⟩ (⟨u, 3⟩, .success res) =
      scheduleNext
        ⟨[], [u], [⟨u, 3, some merged, none⟩], [⟨u, 1⟩, ⟨u, 2⟩, ⟨u, 3⟩], false⟩
        res.next_urls := by
    simp [step, handle_result, h1, h2, h3, write_record]
  simp only [runEvents, List.foldl_cons, List.foldl_nil]
  rw [hseed, hstep1, hstep2, hstep3, scheduleNext_records]

/-- Witness for `fail_twice_then_success` at a concrete URL and result. -/
theorem fail_twice_then_success_witness :
    (FetchResult.mk none (some "d") ["n"] : FetchResult String).from_team_page
        = none ∧
    (FetchResult.mk none (some "d") ["n"] : FetchResult String).from_player_page
        = some "d" ∧
    (fun (_ : String) (p : String) => some ("m" ++ p)) (id "d") "d" = some "md" ∧
    (runEvents 3 id (fun _ p => some ("m" ++ p))
        [(⟨"u", 1⟩, .fail "e1"), (⟨"u", 2⟩, .fail "e2"),
          (⟨"u", 3⟩, .success (FetchResult.mk none (some "d") ["n"]))]
        (seedRun ["u"] (initState String String))).records =
      [⟨"u", 3, some "md", none⟩] :=
  ⟨rfl, rfl, rfl,
    fail_twice_then_success id (fun _ p => some ("m" ++ p)) "u" "e1" "e2"
      (FetchResult.mk none (some "d") ["n"]) "d" "md" rfl rfl rfl⟩

/-! ## Exhausted retries (C3) -/

theorem runEvents_cons {E R : Type} (maxTries : Nat) (player_url : E → String)
    (extend_player : String → E → Option R) (e : Item × Outcome E)
    (evs : List (Item × Outcome E)) (s : RunState E R) :
    runEvents maxTries player_url extend_player (e :: evs) s =
      runEvents maxTries player_url extend_player evs
        (step maxTries player_url extend_player s e) := rfl

theorem runFail_aux {E R : Type} (maxTries : Nat) (player_url : E → String)
    (extend_player : String → E → Option R) (u err : String) :
    ∀ (b a : Nat), a + b = maxTries → 1 ≤ a →
    ∀ (seen : List String) (recs : List (OutcomeRecord R)) (subs : List Item),
      u ∈ seen →
      runEvents maxTries player_url extend_player (failEvts E u err a (b + 1))
        ⟨[⟨u, a⟩], seen, recs, subs, false⟩ =
      ⟨[], seen, recs ++ [⟨u, maxTries, none, some err⟩],
        subs ++ (List.range' (a + 1) b).map (fun i => (⟨u, i⟩ : Item)),
        false⟩ := by
  intro b
  induction b with
  | zero =>
      intro a ha h1 seen recs subs hseen
      have haeq : a = maxTries := by omega
      subst haeq
      simp [failEvts, runEvents, step, write_record]
  | succ b ih =>
      intro a ha h1 seen recs subs hseen
      have haux : failEvts E u err a (b + 1 + 1) =
          (⟨u, a⟩, Outcome.fail err) :: failEvts E u err (a + 1) (b + 1) := by
        simp [failEvts, List.range'_succ]
      rw [haux, runEvents_cons]
      have hstep : step maxTries player_url extend_player
          ⟨[⟨u, a⟩], seen, recs, subs, false⟩ ((⟨u, a⟩ : Item), .fail err) =
          ⟨[⟨u, a + 1⟩], seen, recs, subs ++ [⟨u, a + 1⟩], false⟩ := by
        have hlt : ¬ maxTries ≤ a := by omega
        simp [step, hlt, submit, addSeen, hseen]
      rw [hstep]
      have hr := ih (a + 1) (by omega) (by omega) seen recs
        (subs ++ [(⟨u, a + 1⟩ : Item)]) hseen
      rw [hr]
      simp [List.range'_succ]

/-- C3 as stated is false for a run configured with `max_tries = 0`: the
failing item is still dispatched once (the check happens only on completion),
and the terminal failure record carries `tries = 1`, not `maxTries = 0`. -/
theorem zero_max_tries_one_dispatch :
    (runEvents 0 id (fun _ p => (some p : Option String))
        [(⟨"u", 1⟩, .fail "e")]
        (seedRun ["u"] (initState String String))).records =
      [⟨"u", 1, none, some "e"⟩] ∧
    (runEvents 0 id (fun _ p => (some p : Option String))
        [(⟨"u", 1⟩, .fail "e")]
        (seedRun ["u"] (initState String String))).submissions.length = 1 := by
  constructor <;> decide

/-- C3 (amended, for runs with `max_tries ≥ 1`): an item whose every dispatch
fails is dispatched exactly `maxTries` times (all for the same URL, with
`tries` running 1..maxTries), exactly one terminal failure record is written,
with `tries = maxTries`, and nothing remains in flight. -/
theorem fail_all_dispatches {E R : Type} (maxTries : Nat)
    (player_url : E → String) (extend_player : String → E → Option R)
    (u err : String) (h : 1 ≤ maxTries) :
    (runEvents maxTries player_url extend_player
        (failEvts E u err 1 maxTries) (seedRun [u] (initState E R))).records =
      [⟨u, maxTries, none, some err⟩] ∧
    (runEvents maxTries player_url extend_player
        (failEvts E u err 1 maxTries) (seedRun [u] (initState E R))).submissions =
      (List.range' 1 maxTries).map (fun i => (⟨u, i⟩ : Item)) ∧
    (runEvents maxTries player_url extend_player
        (failEvts E u err 1 maxTries) (seedRun [u] (initState E R))).submissions.length =
      maxTries ∧
    (runEvents maxTries player_url extend_player
        (failEvts E u err 1 maxTries) (seedRun [u] (initState E R))).in_air = [] := by
  have hseed : seedRun [u] (initState E R) =
      ⟨[⟨u, 1⟩], [u], [], [⟨u, 1⟩], false⟩ := by
    simp [seedRun, initState, submit, addSeen, Item.new]
  obtain ⟨b, rfl⟩ : ∃ b, maxTries = b + 1 := ⟨maxTries - 1, by omega⟩
  rw [hseed, runFail_aux (b + 1) player_url extend_player u err b 1 (by omega)
    (by omega) [u] [] [⟨u, 1⟩] (by simp)]
  refine ⟨by simp, ?_, ?_, rfl⟩
  · rw [List.range'_succ]
    simp
  · simp [List.length_range']

/-- Witness for `fail_all_dispatches` at `max_tries = 3`. -/
theorem fail_all_dispatches_witness :
    1 ≤ 3 ∧
    ((runEvents 3 id (fun _ p => (some p : Option String))
        (failEvts String "u" "e" 1 3) (seedRun ["u"] (initState String String))).records =
      [⟨"u", 3, none, some "e"⟩] ∧
    (runEvents 3 id (fun _ p => (some p : Option String))
        (failEvts String "u" "e" 1 3) (seedRun ["u"] (initState String String))).submissions =
      (List.range' 1 3).map (fun i => (⟨"u", i⟩ : Item)) ∧
    (runEvents 3 id (fun _ p => (some p : Option String))
        (failEvts String "u" "e" 1 3) (seedRun ["u"] (initState String String))).submissions.length =
      3 ∧
    (runEvents 3 id (fun _ p => (some p : Option String))
        (failEvts String "u" "e" 1 3) (seedRun ["u"] (initState String String))).in_air = []) :=
  ⟨by decide,
    fail_all_dispatches 3 id (fun _ p => (some p : Option String)) "u" "e"
      (by decide)⟩

/-! ## The dedup frontier (C1) -/

theorem mem_addSeen_self (u : String) (seen : List String) :
    u ∈ addSeen u seen := by
  unfold addSeen
  by_cases h : u ∈ seen <;> simp [h]

theorem mem_addSeen_of_mem {v : String} (u : String) {seen : List String}
    (h : v ∈ seen) : v ∈ addSeen u seen := by
  unfold addSeen
  by_cases h2 : u ∈ seen <;> simp [h2, h]

theorem submit_seen_mono {E R : Type} {s : RunState E R} {it : Item}
    {v : String} (h : v ∈ s.seen) : v ∈ (submit s it).seen :=
  mem_addSeen_of_mem _ h

theorem scheduleNext_seen_mono {E R : Type} (urls : List String)
    {s : RunState E R} {v : String} (h : v ∈ s.seen) :
    v ∈ (scheduleNext s urls).seen := by
  induction urls generalizing s with
  | nil => exact h
  | cons u rest ih =>
      show v ∈ (scheduleNext (if u ∈ s.seen then s
          else submit s (Item.new u)) rest).seen
      by_cases hu : u ∈ s.seen
      · simpa [hu] using ih h
      · simp only [hu, if_false]
        exact ih (submit_seen_mono h)

theorem step_seen_mono {E R : Type} (maxTries : Nat) (player_url : E → String)
    (extend_player : String → E → Option R) (s : RunState E R)
    (ev : Item × Outcome E) {v : String} (h : v ∈ s.seen) :
    v ∈ (step maxTries player_url extend_player s ev).seen := by
  unfold step
  cases hc : s.crashed with
  | true => exact h
  | false =>
      simp only [Bool.false_eq_true, if_false]
      by_cases hin : ev.1 ∈ s.in_air
      · simp only [hin, if_true]
        cases hev : ev.2 with
        | fail e =>
            by_cases hmt : maxTries ≤ ev.1.tries
            · simp only [hmt, if_true, write_record]
              exact h
            · simp only [hmt, if_false]
              exact submit_seen_mono h
        | success res =>
            cases hres : handle_result player_url extend_player ev.1 res with
            | error m =>
                simp only [hres]
                exact h
            | ok eff =>
                simp only [hres]
                exact scheduleNext_seen_mono eff.next_urls h
      · simp only [hin, if_false]
        exact h

theorem runEvents_seen_mono {E R : Type} (maxTries : Nat)
    (player_url : E → String) (extend_player : String → E → Option R)
    (evs : List (Item × Outcome E)) (s : RunState E R) {v : String}
    (h : v ∈ s.seen) :
    v ∈ (runEvents maxTries player_url extend_player evs s).seen := by
  induction evs generalizing s with
  | nil => exact h
  | cons e rest ih =>
      exact ih _ (step_seen_mono maxTries player_url extend_player s e h)

theorem countFirst_submit_fresh {E R : Type} (s : RunState E R)
    (u url : String) :
    countFirst (submit s (Item.new u)) url =
      countFirst s url + (if u = url then 1 else 0) := by
  by_cases h : u = url <;>
    simp [countFirst, submit, Item.new, List.filter_append, h]

theorem countFirst_submit_retry {E R : Type} (s : RunState E R) (it : Item)
    (url : String) (h : 1 ≤ it.tries) :
    countFirst (submit s it) url = countFirst s url := by
  have hne : (it.tries + 1 == 1) = false := by
    simp
    omega
  simp [countFirst, submit, List.filter_append, hne]

theorem dedupInv_submit_fresh {E R : Type} {s : RunState E R} {u : String}
    (hs : DedupInv s) (hu : u ∉ s.seen) :
    DedupInv (submit s (Item.new u)) := by
  obtain ⟨h1, h2, h3⟩ := hs
  refine ⟨?_, ?_, ?_⟩
  · intro url
    rw [countFirst_submit_fresh]
    by_cases he : u = url
    · subst he
      have hz : countFirst s u = 0 := by
        by_contra hne
        exact hu (h2 u (by omega))
      simp [hz]
    · simp only [he, if_false]
      exact Nat.le_trans (Nat.le_of_eq (Nat.add_zero _)) (h1 url)
  · intro url hc
    by_cases he : u = url
    · subst he
      exact mem_addSeen_self u s.seen
    · rw [countFirst_submit_fresh] at hc
      simp only [he, if_false, Nat.add_zero] at hc
      exact mem_addSeen_of_mem _ (h2 url hc)
  · intro it hit
    rcases List.mem_cons.mp hit with h | h
    · subst h
      exact Nat.le_refl 1
    · exact h3 it h

theorem dedupInv_submit_retry {E R : Type} {s : RunState E R} {it : Item}
    (hs : DedupInv s) (ht : 1 ≤ it.tries) : DedupInv (submit s it) := by
  obtain ⟨h1, h2, h3⟩ := hs
  refine ⟨?_, ?_, ?_⟩
  · intro url
    rw [countFirst_submit_retry _ _ _ ht]
    exact h1 url
  · intro url hc
    rw [countFirst_submit_retry _ _ _ ht] at hc
    exact mem_addSeen_of_mem _ (h2 url hc)
  · intro x hx
    rcases List.mem_cons.mp hx with h | h
    · subst h
      exact Nat.succ_le_succ (Nat.zero_le _)
    · exact h3 x h

theorem dedupInv_scheduleNext {E R : Type} (urls : List String)
    {s : RunState E R} (hs : DedupInv s) : DedupInv (scheduleNext s urls) := by
  induction urls generalizing s with
  | nil => exact hs
  | cons u rest ih =>
      show DedupInv (scheduleNext (if u ∈ s.seen then s
          else submit s (Item.new u)) rest)
      by_cases hu : u ∈ s.seen
      · simpa [hu] using ih hs
      · simp only [hu, if_false]
        exact ih (dedupInv_submit_fresh hs hu)

theorem dedupInv_step {E R : Type} (maxTries : Nat) (player_url : E → String)
    (extend_player : String → E → Option R) (s : RunState E R)
    (ev : Item × Outcome E) (hs : DedupInv s) :
    DedupInv (step maxTries player_url extend_player s ev) := by
  obtain ⟨h1, h2, h3⟩ := hs
  have hs0 : DedupInv ({ s with in_air := s.in_air.erase ev.1 } : RunState E R) :=
    ⟨h1, h2, fun it hit => h3 it (List.mem_of_mem_erase hit)⟩
  unfold step
  cases hc : s.crashed with
  | true => exact ⟨h1, h2, h3⟩
  | false =>
      simp only [Bool.false_eq_true, if_false]
      by_cases hin : ev.1 ∈ s.in_air
      · simp only [hin, if_true]
        cases hev : ev.2 with
        | fail e =>
            by_cases hmt : maxTries ≤ ev.1.tries
            · simp only [hmt, if_true, write_record]
              exact ⟨hs0.1, hs0.2.1, hs0.2.2⟩
            · simp only [hmt, if_false]
              exact dedupInv_submit_retry hs0 (h3 ev.1 hin)
        | success res =>
            cases hres : handle_result player_url extend_player ev.1 res with
            | error m =>
                simp only [hres]
                exact ⟨hs0.1, hs0.2.1, hs0.2.2⟩
            | ok eff =>
                simp only [hres]
                exact dedupInv_scheduleNext eff.next_urls
                  ⟨hs0.1, hs0.2.1, hs0.2.2⟩
      · simp only [hin, if_false]
        exact ⟨h1, h2, h3⟩

theorem runEvents_dedupInv {E R : Type} (maxTries : Nat)
    (player_url : E → String) (extend_player : String → E → Option R)
    (evs : List (Item × Outcome E)) (s : RunState E R) (hs : DedupInv s) :
    DedupInv (runEvents maxTries player_url extend_player evs s) := by
  induction evs generalizing s with
  | nil => exact hs
  | cons e rest ih =>
      exact ih _ (dedupInv_step maxTries player_url extend_player s e hs)

theorem countFirst_seedRun {E R : Type} (seeds : List String)
    (s : RunState E R) (url : String) :
    countFirst (seedRun seeds s) url = countFirst s url + seeds.count url := by
  induction seeds generalizing s with
  | nil => simp [seedRun]
  | cons u rest ih =>
      show countFirst (seedRun rest (submit s (Item.new u))) url = _
      rw [ih, countFirst_submit_fresh]
      by_cases h : u = url <;> simp [h, List.count_cons] <;> omega

theorem seedRun_seen_mono {E R : Type} (seeds : List String)
    {s : RunState E R} {v : String} (h : v ∈ s.seen) :
    v ∈ (seedRun seeds s).seen := by
  induction seeds generalizing s with
  | nil => exact h
  | cons u rest ih =>
      show v ∈ (seedRun rest (submit s (Item.new u))).seen
      exact ih (submit_seen_mono h)

theorem seeds_subset_seedRun_seen {E R : Type} (seeds : List String)
    (s : RunState E R) {u : String} (h : u ∈ seeds) :
    u ∈ (seedRun seeds s).seen := by
  induction seeds generalizing s with
  | nil => cases h
  | cons v rest ih =>
      show u ∈ (seedRun rest (submit s (Item.new v))).seen
      rcases List.mem_cons.mp h with h | h
      · subst h
        exact seedRun_seen_mono rest (mem_addSeen_self u s.seen)
      · exact ih _ h

theorem seedRun_in_air_tries {E R : Type} (seeds : List String)
    (s : RunState E R) (h : ∀ it ∈ s.in_air, 1 ≤ it.tries) :
    ∀ it ∈ (seedRun seeds s).in_air, 1 ≤ it.tries := by
  induction seeds generalizing s with
  | nil => exact h
  | cons u rest ih =>
      show ∀ it ∈ (seedRun rest (submit s (Item.new u))).in_air, 1 ≤ it.tries
      refine ih _ ?_
      intro it hit
      rcases List.mem_cons.mp hit with hh | hh
      · subst hh
        exact Nat.le_refl 1
      · exact h it hh

theorem dedupInv_seedRun_init {E R : Type} (seeds : List String)
    (h : seeds.Nodup) : DedupInv (seedRun seeds (initState E R)) := by
  refine ⟨?_, ?_, ?_⟩
  · intro url
    rw [countFirst_seedRun]
    have hz : countFirst (initState E R) url = 0 := rfl
    rw [hz, Nat.zero_add]
    exact List.nodup_iff_count_le_one.mp h url
  · intro url hc
    rw [countFirst_seedRun] at hc
    have hz : countFirst (initState E R) url = 0 := rfl
    rw [hz, Nat.zero_add] at hc
    exact seeds_subset_seedRun_seen seeds _ (List.count_pos_iff.mp hc)
  · refine seedRun_in_air_tries seeds _ ?_
    intro it hit
    simp [initState] at hit

/-- C1 as stated is false when the same URL appears twice in the seed list:
seeding never consults `self._seen` (`run` calls `_submit(Item(url))` for
every seed unconditionally), so `["a", "a"]` creates two first-submission
fetch tasks for URL `"a"`. -/
theorem duplicate_seed_double_task :
    ¬ (countFirst (seedRun ["a", "a"] (initState String String)) "a" ≤ 1) := by
  decide

/-- C1 (amended, requiring a duplicate-free seed list): over any run seeded
with distinct URLs, at most one first-submission fetch task is ever created
per URL — however many next-URL lists mention it — and once a URL is in the
dedup frontier it stays there for the rest of the run. -/
theorem dedup_at_most_one_first_submission {E R : Type} (maxTries : Nat)
    (player_url : E → String) (extend_player : String → E → Option R)
    (seeds : List String) (hnd : seeds.Nodup)
    (evs : List (Item × Outcome E)) :
    (∀ url, countFirst (runEvents maxTries player_url extend_player evs
        (seedRun seeds (initState E R))) url ≤ 1) ∧
    (∀ (s : RunState E R) (evs2 : List (Item × Outcome E)) (url : String),
        url ∈ s.seen →
        url ∈ (runEvents maxTries player_url extend_player evs2 s).seen) :=
  ⟨(runEvents_dedupInv maxTries player_url extend_player evs _
      (dedupInv_seedRun_init seeds hnd)).1,
    fun s evs2 _ h =>
      runEvents_seen_mono maxTries player_url extend_player evs2 s h⟩

/-- Witness for `dedup_at_most_one_first_submission` on a concrete seed
list. -/
theorem dedup_at_most_one_first_submission_witness :
    (["a"] : List String).Nodup ∧
    countFirst (runEvents 1 id (fun _ p => (some p : Option String)) []
        (seedRun ["a"] (initState String String))) "a" ≤ 1 :=
  ⟨by decide,
    (dedup_at_most_one_first_submission 1 id (fun _ p => (some p : Option String))
      ["a"] (by decide) []).1 "a"⟩

end Scraper
